import Mathlib

/-!
Shallow embedding of the `LegalDocumentFinder` retrieval pipeline from
`trainingModelDemo.ipynb` (repository Legal-Doc-AI), together with proofs of
the behavioural claims about it.

Modelling conventions:
* Machine floats are modelled as elements of a `LinearOrderedField`; the claim
  theorems instantiate the scalar type with `ℝ` and the square-root function
  with `Real.sqrt`.  Definitions stay generic (and hence computable); the
  square root used by `np.linalg.norm`, `faiss.normalize_L2` and
  `sklearn`'s cosine is passed explicitly as a function argument `sq`.
* A pandas row of the corpus CSV is a `Row`: only the two columns the code
  touches (`dieu`, `truncated_text`) are modelled; a missing (NaN) cell is
  `Option.none`.
* `np.argsort` with its default sort leaves the relative order of equal
  elements unspecified (the default quicksort is not stable above numpy's
  small-array insertion-sort regime).  The model fixes one determinization:
  the stable ascending argsort, indices ordered lexicographically by
  (value, original index).  Conclusions insensitive to tie order therefore
  hold for the program under any tie behaviour; the single tie-order
  conclusion proved here is restricted to two-element arrays, where numpy's
  sort really is a stable insertion sort.
* `faiss.IndexFlatL2.search` (an external library call) is modelled from its
  documented behaviour: exhaustive search returning, for a single query,
  exactly `k` (label, squared-L2-distance) pairs, ascending by distance;
  when `k` exceeds the number of stored vectors the result is padded with
  label `-1` entries (the padding distance is a sentinel whose numeric value
  none of the claims depend on).
* `pickle` round-trips Python objects faithfully; the cache file is modelled
  as a map from path to the stored pair.
* In `main` the dataframe column `df["embedding"]` is created as
  `list(self.embeddings)`, i.e. as row views into the same numpy array as
  `self.embeddings`; the state model therefore exposes a single field
  `embeddings` that both `np.stack(self.df["embedding"])` and
  `faiss.normalize_L2(self.embeddings)` refer to.
-/

namespace LegalDocAI

/-! ## Corpus rows and the `load_data` cleaning stage -/

/-- One row of the corpus CSV; `none` models a missing (NaN) cell.  Only the
two columns used by the code are represented. -/
structure Row where
  dieu : Option String
  truncated_text : Option String
deriving DecidableEq, Repr, Inhabited

/-- `df.dropna(subset=["truncated_text", "dieu"])` keeps a row iff both
fields are present. -/
def hasRequired (r : Row) : Bool :=
  r.truncated_text.isSome && r.dieu.isSome

/-- The `dropna` step of `load_data`. -/
def dropnaRows (rows : List Row) : List Row :=
  rows.filter hasRequired

/-- Worker for `drop_duplicates(subset=["truncated_text"])` (pandas default
`keep="first"`): walk the rows in order, keeping a row iff its
`truncated_text` has not been seen before. -/
def dropDupAux (seen : List (Option String)) : List Row → List Row
  | [] => []
  | r :: rs =>
    if r.truncated_text ∈ seen then dropDupAux seen rs
    else r :: dropDupAux (r.truncated_text :: seen) rs

/-- `df.drop_duplicates(subset=["truncated_text"])`, first occurrence kept. -/
def dropDuplicatesFirst (rows : List Row) : List Row :=
  dropDupAux [] rows

/-- The cleaning stage of `load_data`:
`df.dropna(subset=["truncated_text","dieu"]).drop_duplicates(subset=["truncated_text"])`
followed by `reset_index(drop=True)` (which only renumbers and is the
identity on the row sequence). -/
def cleanRows (rows : List Row) : List Row :=
  dropDuplicatesFirst (dropnaRows rows)

/-- The two character encodings `load_data` attempts, in order. -/
inductive Enc
  | utf8sig
  | utf16
deriving DecidableEq, Repr

/-- `load_data`: `pd.read_csv(path, encoding="utf-8-sig")` inside a
`try`; on any exception retry with `encoding="utf-16"`; an exception from
the retry propagates (fatal).  The CSV reader is abstracted as a function
from the attempted encoding to either a raw table or an error. -/
def loadData (read : Enc → Except String (List Row)) : Except String (List Row) :=
  match read Enc.utf8sig with
  | Except.ok t => Except.ok (cleanRows t)
  | Except.error _ =>
    match read Enc.utf16 with
    | Except.ok t => Except.ok (cleanRows t)
    | Except.error e => Except.error e

/-! ## Batch encoding -/

/-- The successive slices `texts[i : i + b]` for `i = 0, b, 2b, …` taken by
the loop in `batch_encode_texts`. -/
def chunksOf (b : Nat) : List β → List (List β)
  | [] => []
  | x :: xs =>
    if b = 0 then []
    else (x :: xs).take b :: chunksOf b ((x :: xs).drop b)
termination_by l => l.length
decreasing_by
  simp only [List.length_drop, List.length_cons]
  omega

/-- `batch_encode_texts(texts, batch_size)`: run the tokenizer+model
composite `M` on each slice of `batch_size` texts and concatenate the
per-batch output rows (`np.concatenate(embeddings, axis=0)`). -/
def batchEncodeTexts (M : List String → List V) (b : Nat) (texts : List String) : List V :=
  ((chunksOf b texts).map M).flatten

/-- `encode_text(text)`: run the same composite on the singleton batch and
take the single output row (`.squeeze()`). -/
def encodeText [Inhabited V] (M : List String → List V) (t : String) : V :=
  (M [t]).headI

/-! ## Vectors, similarity scores -/

variable {α : Type*}

/-- Dot product of two equally long rows (`np.dot` on aligned vectors). -/
def dotp [Field α] (a b : List α) : α :=
  (List.zipWith (· * ·) a b).sum

/-- Squared L2 norm of a vector. -/
def normSq [Field α] (a : List α) : α :=
  dotp a a

/-- Squared L2 distance, the quantity `faiss.IndexFlatL2` computes and
returns. -/
def sqDist [Field α] (a b : List α) : α :=
  (List.zipWith (fun x y => (x - y) ^ 2) a b).sum

/-- Cosine similarity `dot(a,b) / (‖a‖·‖b‖)` as computed by
`sklearn.metrics.pairwise.cosine_similarity`; `sq` is the square root.
Division by a zero norm yields the junk value `0`, which coincides with
sklearn's convention of treating zero vectors as producing similarity 0. -/
def cosineSim [Field α] (sq : α → α) (a b : List α) : α :=
  dotp a b / (sq (normSq a) * sq (normSq b))

/-- The conversion the FAISS branch of `find_similar_articles` applies to a
returned squared L2 distance: `similarities = 1 - distances / 2`. -/
def simFromDist [Field α] (d : α) : α :=
  1 - d / 2

/-- `faiss.normalize_L2`: divide each vector by its L2 norm, leaving
zero-norm vectors unchanged (faiss guards `if (nr > 0)`). -/
def normalizeL2 [Field α] [DecidableEq α] (sq : α → α) (v : List α) : List α :=
  if normSq v = 0 then v else v.map (· / sq (normSq v))

/-- The query normalisation in `find_similar_articles`:
`input_embedding / np.linalg.norm(input_embedding, ...)` (no zero guard). -/
def normalizeQuery [Field α] (sq : α → α) (v : List α) : List α :=
  v.map (· / sq (normSq v))

/-! ## Stable ascending argsort (`np.argsort`) -/

/-- Lexicographic comparison on (index, value) pairs by value first, then by
original index: the order realised by a stable ascending argsort. -/
def pairLex [LinearOrder α] (p q : Nat × α) : Prop :=
  p.2 < q.2 ∨ (p.2 = q.2 ∧ p.1 ≤ q.1)

instance [LinearOrder α] : DecidableRel (pairLex (α := α)) := fun p q =>
  inferInstanceAs (Decidable (p.2 < q.2 ∨ (p.2 = q.2 ∧ p.1 ≤ q.1)))

instance [LinearOrder α] : IsTotal (Nat × α) (pairLex (α := α)) where
  total p q := by
    rcases lt_trichotomy p.2 q.2 with h | h | h
    · exact Or.inl (Or.inl h)
    · rcases Nat.le_total p.1 q.1 with h1 | h1
      · exact Or.inl (Or.inr ⟨h, h1⟩)
      · exact Or.inr (Or.inr ⟨h.symm, h1⟩)
    · exact Or.inr (Or.inl h)

instance [LinearOrder α] : IsTrans (Nat × α) (pairLex (α := α)) where
  trans p q r hpq hqr := by
    rcases hpq with h1 | ⟨h1, h1'⟩
    · rcases hqr with h2 | ⟨h2, _⟩
      · exact Or.inl (h1.trans h2)
      · exact Or.inl (h2 ▸ h1)
    · rcases hqr with h2 | ⟨h2, h2'⟩
      · exact Or.inl (h1 ▸ h2)
      · exact Or.inr ⟨h1.trans h2, h1'.trans h2'⟩

/-- The sorted (index, value) pairs underlying the model of `np.argsort`. -/
def sortedPairs [LinearOrder α] (l : List α) : List (Nat × α) :=
  List.insertionSort pairLex l.enum

/-- Model of `np.argsort(l)`: indices of `l` ordered ascending by value.
numpy's default sort does not specify the order of ties; the model
determinizes it to original index order (stable).  Only conclusions that
are insensitive to tie order, or explicitly restricted to the two-element
regime where numpy's sort is genuinely stable, are read back as program
properties. -/
def argsortAsc [LinearOrder α] (l : List α) : List Nat :=
  (sortedPairs l).map Prod.fst

/-- `l.argsort()[::-1][:k]` from the brute-force branch of
`find_similar_articles`. -/
def topIndices [LinearOrder α] (l : List α) (k : Nat) : List Nat :=
  (argsortAsc l).reverse.take k

/-! ## Finder state and the search pipeline -/

/-- The mutable attributes of `LegalDocumentFinder` that the retrieval
claims concern.  `df` is the dataframe (`none` before it is loaded);
`embeddings` is the embedding matrix, which post-`main` is also what the
dataframe's `embedding` column aliases; `index` holds the vectors that were
added to the FAISS index (`none` when no index was built). -/
structure FinderState (α : Type*) where
  df : Option (List Row)
  embeddings : Option (List (List α))
  index : Option (List (List α))

/-- `np.stack(self.df["embedding"].values)`: the matrix the brute-force
branch searches.  Post-`main` the `embedding` column rows are views into
`self.embeddings`, so the column is read from that field. -/
def matrixOf (st : FinderState α) : List (List α) :=
  st.embeddings.getD []

/-- The brute-force similarity scores: cosine of the (unnormalised) query
embedding against every corpus row
(`cosine_similarity(input_embedding, matrix).flatten()`). -/
def simsOf [LinearOrderedField α] (sq : α → α) (st : FinderState α) (e : List α) : List α :=
  (matrixOf st).map (cosineSim sq e)

/-- Sentinel distance of padding entries of a FAISS result when `k` exceeds
the number of stored vectors (float32 maximum). -/
def faissPadDist [Field α] : α :=
  340282346638528859811704183484516925440

/-- The genuine (non-padding) part of a flat-index search result: the at
most `k` entries with smallest value, ascending, paired with their values. -/
def ascIdxSearch [LinearOrder α] [Zero α] (dists : List α) (k : Nat) : List (Int × α) :=
  ((argsortAsc dists).take k).map (fun i => (Int.ofNat i, dists.getD i 0))

/-- Model of `faiss.IndexFlatL2.search` over stored vectors `xs` for a
single query `q`: exactly `k` (label, squared-L2-distance) pairs, ascending
by distance (ties by smaller label), padded with label `-1` entries when
`k > xs.length`. -/
def faissSearch [LinearOrderedField α] (xs : List (List α)) (q : List α) (k : Nat) :
    List (Int × α) :=
  ascIdxSearch (xs.map (sqDist q)) k
    ++ List.replicate (k - min k xs.length) (-1, faissPadDist)

/-- The brute-force branch of `find_similar_articles`:
`top_indices = similarities.argsort()[::-1][:top_k]` paired with
`similarities[top_indices]`. -/
def bruteSearch [LinearOrderedField α] (sims : List α) (k : Nat) : List (Int × α) :=
  (topIndices sims k).map (fun i => (Int.ofNat i, sims.getD i 0))

/-- `find_similar_articles` up to the row lookup: the (row index, similarity
score) pairs it ranks.  With an index present, FAISS is searched with the
normalised query and distances are converted through `simFromDist`;
otherwise cosine scores of the raw query embedding are brute-force ranked. -/
def findSimilarIdx [LinearOrderedField α] (sq : α → α) (st : FinderState α) (e : List α)
    (k : Nat) : List (Int × α) :=
  match st.index with
  | some xs => (faissSearch xs (normalizeQuery sq e) k).map (fun p => (p.1, simFromDist p.2))
  | none => bruteSearch (simsOf sq st e) k

/-- `self.df.iloc[i]` for a (possibly negative) integer position `i`:
negative positions count from the end. -/
def ilocRow (rows : List Row) (i : Int) : Row :=
  if 0 ≤ i then rows.getD i.toNat default
  else rows.getD (rows.length + i).toNat default

/-- The result assembly of `find_similar_articles`:
`self.df.iloc[top_indices][["dieu","truncated_text"]]` with the
`similarity` column attached. -/
def findSimilarArticles [LinearOrderedField α] (sq : α → α) (st : FinderState α)
    (e : List α) (k : Nat) : List (Row × α) :=
  (findSimilarIdx sq st e k).map (fun p => (ilocRow (st.df.getD []) p.1, p.2))

/-! ## Cache persistence -/

/-- The dictionary `{"df": self.df, "embeddings": self.embeddings}` that
`cache_embeddings` pickles. -/
structure CacheData (α : Type*) where
  df : Option (List Row)
  embeddings : Option (List (List α))

/-- `cache_embeddings(cache_path)`: write the pickled pair at the path
(pickle modelled as faithful). -/
def cacheEmbeddings (st : FinderState α) (fs : String → Option (CacheData α))
    (path : String) : String → Option (CacheData α) :=
  fun q => if q = path then some ⟨st.df, st.embeddings⟩ else fs q

/-- `load_cached_embeddings(cache_path)`: if the file exists, restore both
attributes and return `true`; otherwise leave the state alone and return
`false`. -/
def loadCachedEmbeddings (st : FinderState α) (fs : String → Option (CacheData α))
    (path : String) : FinderState α × Bool :=
  match fs path with
  | some c => ({ st with df := c.df, embeddings := c.embeddings }, true)
  | none => (st, false)

/-- `build_index()`: only when faiss imported successfully and
`self.embeddings` is set, normalise `self.embeddings` in place with
`faiss.normalize_L2` and add the normalised vectors to a fresh
`IndexFlatL2`; otherwise do nothing. -/
def buildIndex [Field α] [DecidableEq α] (faissAvailable : Bool) (sq : α → α)
    (st : FinderState α) : FinderState α :=
  if faissAvailable then
    match st.embeddings with
    | some E =>
      let E' := E.map (normalizeL2 sq)
      { st with embeddings := some E', index := some E' }
    | none => st
  else st

/-! ## Concrete states used to exercise the claims -/

/-- A concrete corpus row. -/
def demoRowA : Row := ⟨some "Dieu 1", some "van ban A"⟩

/-- A second concrete corpus row. -/
def demoRowB : Row := ⟨some "Dieu 2", some "van ban B"⟩

/-- A two-row corpus, no index built. -/
def w1St : FinderState ℝ := ⟨some [demoRowA, demoRowB], some [[1], [0]], none⟩

/-- A one-row corpus, no index built. -/
def w2BruteSt : FinderState ℝ := ⟨some [demoRowA], some [[1]], none⟩

/-- A one-row corpus with a FAISS index over its single vector. -/
def w2FaissSt : FinderState ℝ := ⟨some [demoRowA], some [[1]], some [[1]]⟩

/-- A two-row corpus whose rows are positive multiples of each other, so
both have the same cosine similarity to the query `[1]`; no index built. -/
def tieSt : FinderState ℝ := ⟨some [demoRowA, demoRowB], some [[1], [2]], none⟩

/-! ## Lemmas about the argsort model -/

theorem sortedPairs_perm_enum [LinearOrder α] (l : List α) :
    List.Perm (sortedPairs l) l.enum :=
  List.perm_insertionSort pairLex l.enum

theorem sortedPairs_sorted [LinearOrder α] (l : List α) :
    List.Sorted pairLex (sortedPairs l) :=
  List.sorted_insertionSort pairLex l.enum

theorem sortedPairs_length [LinearOrder α] (l : List α) :
    (sortedPairs l).length = l.length :=
  ((sortedPairs_perm_enum l).length_eq).trans (List.enum_length)

theorem getD_of_mem_sortedPairs [LinearOrder α] (l : List α) (d : α) (p : Nat × α)
    (hp : p ∈ sortedPairs l) : l.getD p.1 d = p.2 := by
  have h1 : p ∈ l.enum := (sortedPairs_perm_enum l).mem_iff.mp hp
  have h2 : l[p.1]? = some p.2 := List.mem_enum_iff_getElem?.mp h1
  rw [List.getD_eq_getElem?_getD, h2, Option.getD_some]

theorem argsortAsc_length [LinearOrder α] (l : List α) :
    (argsortAsc l).length = l.length := by
  unfold argsortAsc
  rw [List.length_map, sortedPairs_length]

theorem argsortAsc_perm_range [LinearOrder α] (l : List α) :
    List.Perm (argsortAsc l) (List.range l.length) := by
  have h := (sortedPairs_perm_enum l).map Prod.fst
  rwa [List.enum_map_fst] at h

theorem topIndices_length [LinearOrder α] (l : List α) (k : Nat) :
    (topIndices l k).length = min k l.length := by
  unfold topIndices
  rw [List.length_take, List.length_reverse, argsortAsc_length]

/-! ## Lemmas about the brute-force branch -/

theorem bruteSearch_repr [LinearOrderedField α] (sims : List α) (k : Nat) :
    bruteSearch sims k =
      ((sortedPairs sims).reverse.take k).map (fun p => (Int.ofNat p.1, p.2)) := by
  unfold bruteSearch topIndices argsortAsc
  rw [← List.map_reverse, ← List.map_take, List.map_map]
  refine List.map_congr_left ?_
  intro p hp
  have hmem : p ∈ sortedPairs sims :=
    List.mem_reverse.mp (List.mem_of_mem_take hp)
  have := getD_of_mem_sortedPairs sims 0 p hmem
  simp only [Function.comp_apply]
  rw [this]

theorem bruteSearch_length [LinearOrderedField α] (sims : List α) (k : Nat) :
    (bruteSearch sims k).length = min k sims.length := by
  unfold bruteSearch
  rw [List.length_map, topIndices_length]

theorem bruteSearch_pairwise [LinearOrderedField α] (sims : List α) (k : Nat) :
    List.Pairwise (fun p q : Int × α => q.2 ≤ p.2) (bruteSearch sims k) := by
  rw [bruteSearch_repr]
  have h1 : List.Pairwise (flip pairLex) (sortedPairs sims).reverse :=
    List.pairwise_reverse.mpr (sortedPairs_sorted sims)
  have h2 := h1.sublist (List.take_sublist k _)
  have h3 : List.Pairwise (fun p q : Nat × α => q.2 ≤ p.2)
      ((sortedPairs sims).reverse.take k) := by
    refine h2.imp ?_
    intro p q h
    rcases h with h | ⟨h, _⟩
    · exact le_of_lt h
    · exact le_of_eq h
  exact h3.map (fun p : Nat × α => (Int.ofNat p.1, p.2)) (fun a b h => h)

theorem bruteSearch_map_fst [LinearOrderedField α] (sims : List α) (k : Nat)
    (hk : sims.length ≤ k) :
    List.Perm ((bruteSearch sims k).map Prod.fst)
      ((List.range sims.length).map Int.ofNat) := by
  rw [bruteSearch_repr, List.map_map]
  have htake : (sortedPairs sims).reverse.take k = (sortedPairs sims).reverse := by
    refine List.take_of_length_le ?_
    rw [List.length_reverse, sortedPairs_length]
    exact hk
  rw [htake]
  have h1 : List.Perm ((sortedPairs sims).reverse) (sortedPairs sims) :=
    List.reverse_perm _
  have h2 : List.Perm (sortedPairs sims) sims.enum := sortedPairs_perm_enum sims
  have h3 := (h1.trans h2).map (Prod.fst ∘ fun p : Nat × α => (Int.ofNat p.1, p.2))
  refine h3.trans ?_
  have : (Prod.fst ∘ fun p : Nat × α => (Int.ofNat p.1, p.2)) = Int.ofNat ∘ Prod.fst := rfl
  rw [this, ← List.map_map, List.enum_map_fst]

theorem bruteSearch_scores [LinearOrderedField α] (sims : List α) (k : Nat) :
    ∀ p ∈ bruteSearch sims k, p.2 = sims.getD p.1.toNat 0 := by
  rw [bruteSearch_repr]
  intro p hp
  rcases List.mem_map.mp hp with ⟨q, hq, rfl⟩
  have hmem : q ∈ sortedPairs sims :=
    List.mem_reverse.mp (List.mem_of_mem_take hq)
  have hval := getD_of_mem_sortedPairs sims 0 q hmem
  have h4 : (Int.ofNat q.1).toNat = q.1 := Int.toNat_ofNat q.1
  rw [h4, hval]

theorem findSimilarIdx_none [LinearOrderedField α] (sq : α → α) (st : FinderState α)
    (e : List α) (k : Nat) (hidx : st.index = none) :
    findSimilarIdx sq st e k = bruteSearch (simsOf sq st e) k := by
  unfold findSimilarIdx
  rw [hidx]

theorem simsOf_length [LinearOrderedField α] (sq : α → α) (st : FinderState α)
    (e : List α) : (simsOf sq st e).length = (matrixOf st).length := by
  unfold simsOf
  rw [List.length_map]

/-! ## Lemmas about the FAISS branch -/

theorem ascIdxSearch_repr [LinearOrder α] [Zero α] (dists : List α) (k : Nat) :
    ascIdxSearch dists k =
      ((sortedPairs dists).take k).map (fun p => (Int.ofNat p.1, p.2)) := by
  unfold ascIdxSearch argsortAsc
  rw [← List.map_take, List.map_map]
  refine List.map_congr_left ?_
  intro p hp
  have hmem : p ∈ sortedPairs dists := List.mem_of_mem_take hp
  have := getD_of_mem_sortedPairs dists 0 p hmem
  simp only [Function.comp_apply]
  rw [this]

theorem ascIdxSearch_length [LinearOrder α] [Zero α] (dists : List α) (k : Nat) :
    (ascIdxSearch dists k).length = min k dists.length := by
  unfold ascIdxSearch
  rw [List.length_map, List.length_take, argsortAsc_length]

theorem ascIdxSearch_pairwise [LinearOrder α] [Zero α] (dists : List α) (k : Nat) :
    List.Pairwise (fun p q : Int × α => p.2 ≤ q.2) (ascIdxSearch dists k) := by
  rw [ascIdxSearch_repr]
  have h1 := (sortedPairs_sorted dists).sublist (List.take_sublist k _)
  have h2 : List.Pairwise (fun p q : Nat × α => p.2 ≤ q.2)
      ((sortedPairs dists).take k) := by
    refine h1.imp ?_
    intro p q h
    rcases h with h | ⟨h, _⟩
    · exact le_of_lt h
    · exact le_of_eq h
  exact h2.map (fun p : Nat × α => (Int.ofNat p.1, p.2)) (fun a b h => h)

theorem faissSearch_length [LinearOrderedField α] (xs : List (List α)) (q : List α)
    (k : Nat) : (faissSearch xs q k).length = k := by
  unfold faissSearch
  rw [List.length_append, ascIdxSearch_length, List.length_replicate, List.length_map]
  omega

theorem findSimilarIdx_some [LinearOrderedField α] (sq : α → α) (st : FinderState α)
    (e : List α) (k : Nat) (xs : List (List α)) (hidx : st.index = some xs) :
    findSimilarIdx sq st e k =
      (faissSearch xs (normalizeQuery sq e) k).map (fun p => (p.1, simFromDist p.2)) := by
  unfold findSimilarIdx
  rw [hidx]

/-! ## Lemmas about the duplicate-dropping stage -/

theorem dropDupAux_sublist (seen : List (Option String)) (l : List Row) :
    List.Sublist (dropDupAux seen l) l := by
  induction l generalizing seen with
  | nil => exact List.Sublist.refl []
  | cons r rs ih =>
    unfold dropDupAux
    by_cases h : r.truncated_text ∈ seen
    · rw [if_pos h]
      exact (ih seen).cons r
    · rw [if_neg h]
      exact (ih (r.truncated_text :: seen)).cons₂ r

theorem mem_dropDupAux_not_seen (seen : List (Option String)) (l : List Row) :
    ∀ r ∈ dropDupAux seen l, r.truncated_text ∉ seen := by
  induction l generalizing seen with
  | nil =>
    intro r hr
    simp [dropDupAux] at hr
  | cons x xs ih =>
    intro r hr
    unfold dropDupAux at hr
    by_cases h : x.truncated_text ∈ seen
    · rw [if_pos h] at hr
      exact ih seen r hr
    · rw [if_neg h] at hr
      rcases List.mem_cons.mp hr with rfl | hr'
      · exact h
      · have := ih (x.truncated_text :: seen) r hr'
        intro hc
        exact this (List.mem_cons_of_mem _ hc)

theorem dropDupAux_pairwise (seen : List (Option String)) (l : List Row) :
    List.Pairwise (fun a b : Row => a.truncated_text ≠ b.truncated_text)
      (dropDupAux seen l) := by
  induction l generalizing seen with
  | nil => simp [dropDupAux]
  | cons x xs ih =>
    unfold dropDupAux
    by_cases h : x.truncated_text ∈ seen
    · rw [if_pos h]
      exact ih seen
    · rw [if_neg h]
      refine List.pairwise_cons.mpr ⟨?_, ih _⟩
      intro b hb
      have := mem_dropDupAux_not_seen (x.truncated_text :: seen) xs b hb
      intro hc
      exact this (hc ▸ List.mem_cons_self _ _)

theorem dropDupAux_covers (seen : List (Option String)) (l : List Row) :
    ∀ r ∈ l, r.truncated_text ∉ seen →
      ∃ r' ∈ dropDupAux seen l, r'.truncated_text = r.truncated_text := by
  induction l generalizing seen with
  | nil =>
    intro r hr
    exact absurd hr (List.not_mem_nil r)
  | cons x xs ih =>
    intro r hr hseen
    unfold dropDupAux
    by_cases h : x.truncated_text ∈ seen
    · rw [if_pos h]
      rcases List.mem_cons.mp hr with rfl | hr'
      · exact absurd h hseen
      · exact ih seen r hr' hseen
    · rw [if_neg h]
      rcases List.mem_cons.mp hr with rfl | hr'
      · exact ⟨r, List.mem_cons_self _ _, rfl⟩
      · by_cases hkey : r.truncated_text = x.truncated_text
        · exact ⟨x, List.mem_cons_self _ _, hkey.symm⟩
        · have hnot : r.truncated_text ∉ x.truncated_text :: seen := by
            intro hc
            rcases List.mem_cons.mp hc with hc' | hc'
            · exact hkey hc'
            · exact hseen hc'
          rcases ih (x.truncated_text :: seen) r hr' hnot with ⟨r', hr'', heq⟩
          exact ⟨r', List.mem_cons_of_mem _ hr'', heq⟩

theorem dropDupAux_firstocc (seen : List (Option String)) (l : List Row) :
    ∀ r ∈ dropDupAux seen l,
      l.find? (fun x => x.truncated_text == r.truncated_text) = some r := by
  induction l generalizing seen with
  | nil =>
    intro r hr
    simp [dropDupAux] at hr
  | cons x xs ih =>
    intro r hr
    unfold dropDupAux at hr
    by_cases h : x.truncated_text ∈ seen
    · rw [if_pos h] at hr
      have hnd : r.truncated_text ∉ seen := mem_dropDupAux_not_seen seen xs r hr
      have hne : x.truncated_text ≠ r.truncated_text := by
        intro hc
        exact hnd (hc ▸ h)
      rw [List.find?_cons_of_neg _ (by simpa using hne)]
      exact ih seen r hr
    · rw [if_neg h] at hr
      rcases List.mem_cons.mp hr with rfl | hr'
      · rw [List.find?_cons_of_pos _ (by simp)]
      · have hnd : r.truncated_text ∉ x.truncated_text :: seen :=
          mem_dropDupAux_not_seen (x.truncated_text :: seen) xs r hr'
        have hne : x.truncated_text ≠ r.truncated_text := by
          intro hc
          exact hnd (hc ▸ List.mem_cons_self _ _)
        rw [List.find?_cons_of_neg _ (by simpa using hne)]
        exact ih (x.truncated_text :: seen) r hr'

/-! ## Lemmas about batching -/

theorem chunksOf_flatten {β : Type*} (b : Nat) (hb : 1 ≤ b) (l : List β) :
    (chunksOf b l).flatten = l := by
  cases l with
  | nil => simp [chunksOf]
  | cons x xs =>
    rw [chunksOf, if_neg (by omega)]
    rw [List.flatten_cons, chunksOf_flatten b hb ((x :: xs).drop b)]
    exact List.take_append_drop b (x :: xs)
termination_by l.length
decreasing_by
  simp only [List.length_drop, List.length_cons]
  omega

/-! ## Lemmas about squared distance and cosine -/

theorem sqDist_expand [LinearOrderedField α] :
    ∀ (a b : List α), a.length = b.length →
      sqDist a b = normSq a + normSq b - 2 * dotp a b := by
  intro a
  induction a with
  | nil =>
    intro b h
    cases b with
    | nil => simp [sqDist, normSq, dotp]
    | cons y ys => simp at h
  | cons x xs ih =>
    intro b h
    cases b with
    | nil => simp at h
    | cons y ys =>
      have h' : xs.length = ys.length := by simpa using h
      have e1 : sqDist (x :: xs) (y :: ys) = (x - y) ^ 2 + sqDist xs ys := by
        simp [sqDist]
      have e2 : normSq (x :: xs) = x * x + normSq xs := by
        simp [normSq, dotp]
      have e3 : normSq (y :: ys) = y * y + normSq ys := by
        simp [normSq, dotp]
      have e4 : dotp (x :: xs) (y :: ys) = x * y + dotp xs ys := by
        simp [dotp]
      rw [e1, e2, e3, e4, ih ys h']
      ring

/-! ## Concrete score evaluations -/

theorem cosine_one_one : cosineSim Real.sqrt [(1 : ℝ)] [1] = 1 := by
  unfold cosineSim normSq dotp
  norm_num [Real.sqrt_one]

theorem cosine_one_two : cosineSim Real.sqrt [(1 : ℝ)] [2] = 1 := by
  unfold cosineSim normSq dotp
  have h4 : Real.sqrt 4 = 2 := by
    rw [show (4 : ℝ) = 2 ^ 2 by norm_num]
    exact Real.sqrt_sq (by norm_num)
  norm_num [Real.sqrt_one, h4]

theorem tieSt_sims : simsOf Real.sqrt tieSt [1] = [1, 1] := by
  unfold simsOf matrixOf tieSt
  simp [cosine_one_one, cosine_one_two]

theorem tie_sorted_pairs : sortedPairs ([1, 1] : List ℝ) = [(0, 1), (1, 1)] := by
  unfold sortedPairs
  have henum : ([1, 1] : List ℝ).enum = [(0, 1), (1, 1)] := rfl
  rw [henum]
  simp only [List.insertionSort, List.orderedInsert]
  rw [if_pos (show pairLex ((0 : Nat), (1 : ℝ)) (1, 1) from Or.inr ⟨rfl, by norm_num⟩)]

/-! ## Claim theorems -/

/-- Claim C1: with no similarity index present and `k` at least the corpus
size `N`, the brute-force `find_similar_articles` returns exactly `N`
entries, whose row indices are a permutation of `0..N-1` (each row exactly
once), ordered by non-increasing cosine similarity between the query
embedding and the corresponding corpus row. -/
theorem brute_full_search_ranking (st : FinderState ℝ) (e : List ℝ) (k : Nat)
    (hidx : st.index = none) (hk : (matrixOf st).length ≤ k) :
    (findSimilarIdx Real.sqrt st e k).length = (matrixOf st).length ∧
    List.Perm ((findSimilarIdx Real.sqrt st e k).map Prod.fst)
      ((List.range (matrixOf st).length).map Int.ofNat) ∧
    List.Pairwise (fun p q : Int × ℝ => q.2 ≤ p.2) (findSimilarIdx Real.sqrt st e k) ∧
    (∀ p ∈ findSimilarIdx Real.sqrt st e k,
      p.2 = (simsOf Real.sqrt st e).getD p.1.toNat 0) := by
  have hs := simsOf_length Real.sqrt st e
  rw [findSimilarIdx_none Real.sqrt st e k hidx]
  refine ⟨?_, ?_, bruteSearch_pairwise _ _, bruteSearch_scores _ _⟩
  · rw [bruteSearch_length, hs]
    omega
  · have h := bruteSearch_map_fst (simsOf Real.sqrt st e) k (by rw [hs]; exact hk)
    rwa [hs] at h

/-- Witness for C1 on a concrete two-row corpus with `k = N = 2`. -/
theorem brute_full_search_ranking_witness :
    (findSimilarIdx Real.sqrt w1St [1] 2).length = (matrixOf w1St).length :=
  (brute_full_search_ranking w1St [1] 2 rfl (by norm_num : (2 : Nat) ≤ 2)).1

/-- Claim C2 (amended): the brute-force strategy returns exactly
`min(k, corpus size)` results, best match first.  The FAISS strategy over an
index of `N` vectors returns exactly `k` entries: the first `min(k, N)` are
genuine results ordered best match first, and when `k > N` the remaining
`k − min(k, N)` entries are padding rows carrying the FAISS sentinel label
`-1` (so the result length is `k`, not `min(k, corpus size)`). -/
theorem search_result_length_by_strategy (st : FinderState ℝ) (e : List ℝ) (k : Nat) :
    (st.index = none →
      (findSimilarArticles Real.sqrt st e k).length = min k (matrixOf st).length ∧
      List.Pairwise (fun p q : Int × ℝ => q.2 ≤ p.2) (findSimilarIdx Real.sqrt st e k)) ∧
    (∀ xs, st.index = some xs →
      (findSimilarArticles Real.sqrt st e k).length = k ∧
      List.Pairwise (fun p q : Int × ℝ => q.2 ≤ p.2)
        ((findSimilarIdx Real.sqrt st e k).take (min k xs.length)) ∧
      ((findSimilarIdx Real.sqrt st e k).drop (min k xs.length)).map Prod.fst =
        List.replicate (k - min k xs.length) (-1)) := by
  constructor
  · intro hidx
    rw [findSimilarArticles, findSimilarIdx_none Real.sqrt st e k hidx]
    refine ⟨?_, ?_⟩
    · rw [List.length_map, bruteSearch_length, simsOf_length]
    · exact bruteSearch_pairwise _ _
  · intro xs hidx
    rw [findSimilarArticles, findSimilarIdx_some Real.sqrt st e k xs hidx]
    have hdists : (xs.map (sqDist (normalizeQuery Real.sqrt e))).length = xs.length :=
      List.length_map xs _
    have hgen : ((ascIdxSearch (xs.map (sqDist (normalizeQuery Real.sqrt e))) k).map
        (fun p : Int × ℝ => (p.1, simFromDist p.2))).length = min k xs.length := by
      rw [List.length_map, ascIdxSearch_length, hdists]
    refine ⟨?_, ?_, ?_⟩
    · rw [List.length_map, List.length_map, faissSearch_length]
    · rw [faissSearch, List.map_append, ← hgen, List.take_left]
      refine (ascIdxSearch_pairwise _ k).map
        (fun p : Int × ℝ => (p.1, simFromDist p.2)) ?_
      intro p q h
      show simFromDist q.2 ≤ simFromDist p.2
      unfold simFromDist
      linarith
    · rw [faissSearch, List.map_append, ← hgen, List.drop_left, List.map_map,
        List.map_replicate]
      rfl

/-- Counterexample to claim C2 as stated: with the FAISS index active over a
one-row corpus and `k = 2`, the assembled result has 2 entries, not
`min(2, corpus size) = 1`. -/
theorem search_result_length_counterexample :
    (findSimilarArticles Real.sqrt w2FaissSt [1] 2).length ≠
      min 2 (matrixOf w2FaissSt).length := by
  have h1 : (findSimilarArticles Real.sqrt w2FaissSt [1] 2).length = 2 := by
    rw [findSimilarArticles, List.length_map,
      findSimilarIdx_some Real.sqrt w2FaissSt [1] 2 [[1]] rfl,
      List.length_map, faissSearch_length]
  rw [h1, show (matrixOf w2FaissSt).length = 1 from rfl]
  norm_num

/-- Witness for C2 (amended): the brute-force length law at a concrete
unindexed state, and the `k`-length law at a concrete indexed state. -/
theorem search_result_length_by_strategy_witness :
    (findSimilarArticles Real.sqrt w2BruteSt [1] 5).length =
      min 5 (matrixOf w2BruteSt).length ∧
    (findSimilarArticles Real.sqrt w2FaissSt [1] 2).length = 2 :=
  ⟨((search_result_length_by_strategy w2BruteSt [1] 5).1 rfl).1,
   ((search_result_length_by_strategy w2FaissSt [1] 2).2 [[1]] rfl).1⟩

/-- Claim C3 (amended): brute-force tie-breaking does not follow original
row order — the code reverses numpy's ascending argsort, and `np.argsort`
(default sort) leaves the relative order of ties unspecified for large
arrays, so no universal tie rule is a program property.  In the two-row
regime, where numpy's sort is a stable insertion sort, two corpus rows with
equal cosine similarity to the query are ranked with the LARGER original
row index first: the full ranking is row 1 before row 0. -/
theorem brute_ties_two_rows_larger_first (st : FinderState ℝ) (e : List ℝ)
    (k : Nat) (hidx : st.index = none) (hlen : (matrixOf st).length = 2)
    (hk : 2 ≤ k)
    (heq : (simsOf Real.sqrt st e).getD 0 0 = (simsOf Real.sqrt st e).getD 1 0) :
    (findSimilarIdx Real.sqrt st e k).map Prod.fst = [1, 0] := by
  have hslen : (simsOf Real.sqrt st e).length = 2 := by
    rw [simsOf_length]
    exact hlen
  rcases List.length_eq_two.mp hslen with ⟨a, b, hab⟩
  rw [hab] at heq
  have hba : a = b := heq
  subst hba
  rw [findSimilarIdx_none Real.sqrt st e k hidx, hab]
  have hsp : sortedPairs [a, a] = [(0, a), (1, a)] := by
    unfold sortedPairs
    have henum : ([a, a] : List ℝ).enum = [(0, a), (1, a)] := rfl
    rw [henum]
    simp only [List.insertionSort, List.orderedInsert]
    rw [if_pos (show pairLex ((0 : Nat), a) (1, a) from Or.inr ⟨rfl, by norm_num⟩)]
  unfold bruteSearch topIndices argsortAsc
  rw [hsp]
  have htake : (([(0, a), (1, a)].map Prod.fst).reverse.take k) = [1, 0] := by
    have h2 : ([(0, a), (1, a)].map Prod.fst).reverse = [1, 0] := rfl
    rw [h2]
    refine List.take_of_length_le ?_
    simp only [List.length_cons, List.length_nil]
    omega
  rw [htake]
  rfl

/-- Counterexample to claim C3 as stated: in `tieSt`, rows 0 and 1 have
equal cosine similarity to the query `[1]`, yet the brute-force ranking
places row 1 (the larger index) first, not row 0. -/
theorem brute_ties_counterexample :
    cosineSim Real.sqrt [(1 : ℝ)] [1] = cosineSim Real.sqrt [(1 : ℝ)] [2] ∧
    (findSimilarIdx Real.sqrt tieSt [1] 2).map Prod.fst = [1, 0] := by
  constructor
  · rw [cosine_one_one, cosine_one_two]
  · rw [findSimilarIdx_none Real.sqrt tieSt [1] 2 rfl, tieSt_sims]
    unfold bruteSearch topIndices argsortAsc
    rw [tie_sorted_pairs]
    rfl

/-- Witness for C3 (amended) at the concrete tied two-row corpus `tieSt`. -/
theorem brute_ties_two_rows_larger_first_witness :
    (findSimilarIdx Real.sqrt tieSt [1] 2).map Prod.fst = [1, 0] :=
  brute_ties_two_rows_larger_first tieSt [1] 2 rfl rfl
    (by norm_num : (2 : Nat) ≤ 2) (by rw [tieSt_sims]; rfl)

/-- Claim C4: for exactly unit-L2-normalised vectors `a` (query) and `b`
(corpus row), the score the approximate strategy computes from the squared
L2 distance via `similarity = 1 - d/2` equals the cosine similarity
`dot(a,b)`, because for unit vectors the squared L2 distance is
`2 - 2·cosine`. -/
theorem faiss_score_eq_cosine_on_unit_vectors (a b : List ℝ)
    (hlen : a.length = b.length) (ha : normSq a = 1) (hb : normSq b = 1) :
    simFromDist (sqDist a b) = cosineSim Real.sqrt a b := by
  unfold simFromDist cosineSim
  rw [sqDist_expand a b hlen, ha, hb, Real.sqrt_one, one_mul, div_one]
  ring

/-- Witness for C4 at the concrete unit vectors `[1,0]` and `[0,1]`. -/
theorem faiss_score_eq_cosine_on_unit_vectors_witness :
    simFromDist (sqDist [(1 : ℝ), 0] [0, 1]) = cosineSim Real.sqrt [(1 : ℝ), 0] [0, 1] :=
  faiss_score_eq_cosine_on_unit_vectors [(1 : ℝ), 0] [0, 1] rfl
    (by norm_num [normSq, dotp]) (by norm_num [normSq, dotp])

/-- Claim C5: `load_data` drops exactly the rows missing the text or the
identifier field and the rows whose text duplicates an earlier (retained)
row's text, keeping first occurrences, in original order.  The conjuncts:
the result is a subsequence of the input (stable original order); every kept
row has both fields; kept texts are pairwise distinct; every valid text of
the input is represented; each kept row is the first row with its text among
the rows that survived the missing-field filter; and `load_data` returns
exactly this cleaned table when the CSV read succeeds. -/
theorem load_data_cleaning_spec (rows : List Row) :
    List.Sublist (cleanRows rows) rows ∧
    (∀ r ∈ cleanRows rows, hasRequired r = true) ∧
    List.Pairwise (fun a b : Row => a.truncated_text ≠ b.truncated_text) (cleanRows rows) ∧
    (∀ r ∈ rows, hasRequired r = true →
      ∃ r' ∈ cleanRows rows, r'.truncated_text = r.truncated_text) ∧
    (∀ r ∈ cleanRows rows,
      (dropnaRows rows).find? (fun x => x.truncated_text == r.truncated_text) = some r) ∧
    loadData (fun _ => Except.ok rows) = Except.ok (cleanRows rows) := by
  refine ⟨?_, ?_, dropDupAux_pairwise [] _, ?_, dropDupAux_firstocc [] _, rfl⟩
  · exact (dropDupAux_sublist [] _).trans (List.filter_sublist rows)
  · intro r hr
    have hmem : r ∈ dropnaRows rows :=
      (dropDupAux_sublist [] _).subset hr
    exact (List.mem_filter.mp hmem).2
  · intro r hr hreq
    have hmem : r ∈ dropnaRows rows := List.mem_filter.mpr ⟨hr, hreq⟩
    exact dropDupAux_covers [] (dropnaRows rows) r hmem (List.not_mem_nil _)

/-- Witness for C5 on a concrete table with a missing-field row and a
duplicate-text row. -/
theorem load_data_cleaning_spec_witness :
    (∃ r' ∈ cleanRows [⟨some "1", some "a"⟩, ⟨none, some "b"⟩, ⟨some "2", some "a"⟩],
      r'.truncated_text = some "a") ∧
    (dropnaRows [⟨some "1", some "a"⟩, ⟨none, some "b"⟩, ⟨some "2", some "a"⟩]).find?
        (fun x => x.truncated_text == some "a") = some ⟨some "1", some "a"⟩ := by
  have h := load_data_cleaning_spec
    [⟨some "1", some "a"⟩, ⟨none, some "b"⟩, ⟨some "2", some "a"⟩]
  refine ⟨h.2.2.2.1 ⟨some "1", some "a"⟩ (by decide) (by decide), ?_⟩
  have h5 := h.2.2.2.2.1 ⟨some "1", some "a"⟩ (by decide)
  exact h5

/-- Claim C6: batching changes no per-item output: provided the underlying
tokenizer+model composite `M` is a deterministic per-item function (it sends
every batch to the per-text map of some fixed function `f`), for every batch
size `b ≥ 1` the `i`-th output of `batch_encode_texts` equals
`encode_text` of the `i`-th input text. -/
theorem batch_encode_matches_single {V : Type*} [Inhabited V]
    (M : List String → List V) (f : String → V) (hM : ∀ ts, M ts = ts.map f)
    (b : Nat) (hb : 1 ≤ b) (texts : List String) :
    batchEncodeTexts M b texts = texts.map (encodeText M) := by
  have henc : ∀ t, encodeText M t = f t := by
    intro t
    unfold encodeText
    rw [hM [t]]
    rfl
  unfold batchEncodeTexts
  have h1 : (chunksOf b texts).map M = (chunksOf b texts).map (List.map f) :=
    List.map_congr_left (fun c _ => hM c)
  rw [h1, ← List.map_flatten, chunksOf_flatten b hb]
  exact List.map_congr_left (fun t _ => (henc t).symm)

/-- Witness for C6 with batch size 2 over three texts and a concrete
per-item encoder. -/
theorem batch_encode_matches_single_witness :
    batchEncodeTexts (fun ts => ts.map String.length) 2 ["ab", "c", "def"] =
      ["ab", "c", "def"].map (encodeText (fun ts => ts.map String.length)) :=
  batch_encode_matches_single (fun ts => ts.map String.length) String.length
    (fun _ => rfl) 2 (by norm_num) ["ab", "c", "def"]

/-- Claim C7: persisting the finder's corpus state with `cache_embeddings`
and then restoring from the same path with `load_cached_embeddings` yields
exactly the original dataframe rows and exactly the original embedding
matrix (and reports a cache hit), regardless of the state the loading
finder starts from. -/
theorem cache_roundtrip_exact {α : Type*} (st stLoad : FinderState α)
    (fs : String → Option (CacheData α)) (path : String) :
    loadCachedEmbeddings stLoad (cacheEmbeddings st fs path) path =
      ({ stLoad with df := st.df, embeddings := st.embeddings }, true) := by
  unfold loadCachedEmbeddings cacheEmbeddings
  rw [if_pos rfl]

/-- Claim C8: `load_data` attempts UTF-8-with-BOM first (and on success the
UTF-16 read is never consulted), on failure retries with exactly UTF-16,
and if both fail surfaces the error with no further fallback — no table is
produced. -/
theorem load_data_encoding_fallback (read : Enc → Except String (List Row)) :
    (∀ t, read Enc.utf8sig = Except.ok t →
      loadData read = Except.ok (cleanRows t)) ∧
    (∀ e t, read Enc.utf8sig = Except.error e → read Enc.utf16 = Except.ok t →
      loadData read = Except.ok (cleanRows t)) ∧
    (∀ e e2, read Enc.utf8sig = Except.error e → read Enc.utf16 = Except.error e2 →
      loadData read = Except.error e2) := by
  refine ⟨?_, ?_, ?_⟩
  · intro t h
    unfold loadData
    rw [h]
  · intro e t h1 h2
    unfold loadData
    rw [h1, h2]
  · intro e e2 h1 h2
    unfold loadData
    rw [h1, h2]

/-- Witness for C8: each of the three encoding outcomes observed on a
concrete reader. -/
theorem load_data_encoding_fallback_witness :
    loadData (fun _ => Except.ok [demoRowA]) = Except.ok (cleanRows [demoRowA]) ∧
    loadData (fun enc => match enc with
      | Enc.utf8sig => Except.error "utf-8-sig failed"
      | Enc.utf16 => Except.ok [demoRowA]) = Except.ok (cleanRows [demoRowA]) ∧
    loadData (fun _ => Except.error "decode failed") = Except.error "decode failed" := by
  refine ⟨?_, ?_, ?_⟩
  · exact (load_data_encoding_fallback _).1 [demoRowA] rfl
  · exact (load_data_encoding_fallback _).2.1 "utf-8-sig failed" [demoRowA] rfl rfl
  · exact (load_data_encoding_fallback _).2.2 "decode failed" "decode failed" rfl rfl

/-- Claim C9: with faiss unavailable, `build_index` changes nothing (in
particular the index stays absent), and `find_similar_articles` runs the
exact brute-force cosine search, returning the ranked (non-increasing
similarity) result. -/
theorem faiss_unavailable_fallback (st : FinderState ℝ) (e : List ℝ) (k : Nat)
    (hidx : st.index = none) :
    buildIndex false Real.sqrt st = st ∧
    (buildIndex false Real.sqrt st).index = none ∧
    findSimilarIdx Real.sqrt (buildIndex false Real.sqrt st) e k =
      bruteSearch (simsOf Real.sqrt st e) k ∧
    List.Pairwise (fun p q : Int × ℝ => q.2 ≤ p.2)
      (findSimilarIdx Real.sqrt (buildIndex false Real.sqrt st) e k) := by
  have hb : buildIndex false Real.sqrt st = st := by
    unfold buildIndex
    rfl
  rw [hb]
  exact ⟨rfl, hidx, findSimilarIdx_none Real.sqrt st e k hidx,
    by rw [findSimilarIdx_none Real.sqrt st e k hidx]; exact bruteSearch_pairwise _ _⟩

/-- Witness for C9 at a concrete unindexed state. -/
theorem faiss_unavailable_fallback_witness :
    buildIndex false Real.sqrt w1St = w1St ∧
    (buildIndex false Real.sqrt w1St).index = none ∧
    findSimilarIdx Real.sqrt (buildIndex false Real.sqrt w1St) [1] 5 =
      bruteSearch (simsOf Real.sqrt w1St [1]) 5 ∧
    List.Pairwise (fun p q : Int × ℝ => q.2 ≤ p.2)
      (findSimilarIdx Real.sqrt (buildIndex false Real.sqrt w1St) [1] 5) :=
  faiss_unavailable_fallback w1St [1] 5 rfl

/-- Claim C10 (implicit frame effect): when faiss is available and
embeddings are present, `build_index` replaces every stored embedding (the
matrix also read through the dataframe's aliasing `embedding` column) by
its unit-L2-normalised version, so a subsequent cache persist stores the
normalised matrix and a subsequent brute-force similarity computation reads
the normalised rows, not the raw encoder outputs. -/
theorem build_index_normalizes_embeddings (st : FinderState ℝ) (E : List (List ℝ))
    (hE : st.embeddings = some E) :
    buildIndex true Real.sqrt st =
      { st with embeddings := some (E.map (normalizeL2 Real.sqrt)),
                index := some (E.map (normalizeL2 Real.sqrt)) } ∧
    matrixOf (buildIndex true Real.sqrt st) = E.map (normalizeL2 Real.sqrt) ∧
    (∀ fs path, cacheEmbeddings (buildIndex true Real.sqrt st) fs path path =
      some ⟨st.df, some (E.map (normalizeL2 Real.sqrt))⟩) ∧
    (∀ e, simsOf Real.sqrt (buildIndex true Real.sqrt st) e =
      (E.map (normalizeL2 Real.sqrt)).map (cosineSim Real.sqrt e)) := by
  have hb : buildIndex true Real.sqrt st =
      { st with embeddings := some (E.map (normalizeL2 Real.sqrt)),
                index := some (E.map (normalizeL2 Real.sqrt)) } := by
    unfold buildIndex
    rw [hE]
    rfl
  refine ⟨hb, ?_, ?_, ?_⟩
  · rw [hb]
    rfl
  · intro fs path
    rw [hb]
    unfold cacheEmbeddings
    rw [if_pos rfl]
  · intro e
    rw [hb]
    rfl

/-- Witness for C10 at a concrete state holding one raw (non-unit)
embedding. -/
theorem build_index_normalizes_embeddings_witness :
    matrixOf (buildIndex true Real.sqrt ⟨some [demoRowA], some [[3, 4]], none⟩) =
      [[(3 : ℝ), 4]].map (normalizeL2 Real.sqrt) :=
  (build_index_normalizes_embeddings ⟨some [demoRowA], some [[3, 4]], none⟩
    [[(3 : ℝ), 4]] rfl).2.1

end LegalDocAI
